import Mathlib

/-!
z0rg: `zero_copy`, `zero_copy_scoped` and `traits::is_zero_copy`.

A shallow embedding of `zero_copy.hpp`, `zero_copy_scoped.hpp` and
`traits/is_zero_copy.hpp`, followed by theorems about it.

* The type level (which of the two class templates an instantiation
  `zero_copy<T, IT>` selects) is embedded over a small universe of C++ types.
* The run-time level is embedded with explicit state: the container is a
  `List`, a cursor (`IT`) is a position in it, dereferencing a cursor is
  partial, and a `T&` is a `Handle` naming the storage it refers to.
* Every member function is embedded once, with an `Outcome`: it returns, or
  it stops at the dereference of a cursor outside the sequence, in the state
  reached by then. `zero_copy::set` enters each of its calls in a record that
  the state carries (`Traced`). The `Option`-valued `get`, `set` and `dtor`
  are what these return.
-/

namespace z0rg

/-! ## Type level -/

/-- Object types (possibly `const`-qualified): the types an element of a
sequence, or a proxy object, can have. The flag is the `const` qualifier. -/
inductive ObjTy where
  | int (isConst : Bool)
  | bool (isConst : Bool)
  | cls (name : String) (isConst : Bool)
  | ptr (pointee : ObjTy) (isConst : Bool)
  deriving DecidableEq, Repr

/-- Types that `std::iterator_traits<IT>::reference` can denote. -/
inductive Ty where
  /-- a non-reference type: dereferencing yields a copy or a proxy object -/
  | value (t : ObjTy)
  /-- the lvalue reference type `t&` -/
  | lref (t : ObjTy)
  /-- the rvalue reference type `t&&` -/
  | rref (t : ObjTy)
  deriving DecidableEq, Repr

/-- The `const`-qualified version of an object type. -/
def ObjTy.addConst : ObjTy → ObjTy
  | .int _ => .int true
  | .bool _ => .bool true
  | .cls n _ => .cls n true
  | .ptr p _ => .ptr p true

/-- A cursor type `IT`, as far as this library looks at it: the member
`reference` of `std::iterator_traits<IT>`. -/
structure CursorTy where
  reference : Ty
  deriving DecidableEq, Repr

/-- The cursor type `std::vector<int>::iterator`: `reference` is `int&`. -/
def vector_int_iterator : CursorTy := ⟨.lref (.int false)⟩

/-- The cursor type `std::list<int>::iterator`: `reference` is `int&`. -/
def list_int_iterator : CursorTy := ⟨.lref (.int false)⟩

/-- The cursor type `std::vector<bool>::iterator`: `reference` is the proxy
class `std::vector<bool>::reference`, not a reference type. -/
def vector_bool_iterator : CursorTy := ⟨.value (.cls "std::vector<bool>::reference" false)⟩

namespace impl

/-- Deduction of the parameter `T` of the partial specialisation
`zero_copy_impl<T, T&>` from its second argument: the pattern `T&` matches an
lvalue reference type only, and binds `T` to the referred type. -/
def deduceSecond : Ty → Option ObjTy
  | .lref t => some t
  | _ => none

/-- Whether the arguments `<T, R>` match the partial specialisation
`zero_copy_impl<T, T&>`: the first argument binds the parameter to `T`, the
second binds it through `deduceSecond`, and the two bindings must agree. -/
def matchesSpecialization (T : ObjTy) (R : Ty) : Bool :=
  match deduceSecond R with
  | some t => decide (t = T)
  | none => false

/-- `zero_copy_impl<T, R>::is_zero_copy`: `true` in the partial specialisation
`zero_copy_impl<T, T&>`, `false` in the primary template. -/
def zero_copy_impl.is_zero_copy (T : ObjTy) (R : Ty) : Bool :=
  if matchesSpecialization T R then true else false

end impl

/-- `zero_copy<T, IT>::R`, that is `std::iterator_traits<IT>::reference`. -/
def zero_copy.R (IT : CursorTy) : Ty := IT.reference

/-- `zero_copy<T, IT>::is_zero_copy`, that is `Impl::is_zero_copy` with
`Impl = impl::zero_copy_impl<T, R>`. -/
def zero_copy.is_zero_copy (T : ObjTy) (IT : CursorTy) : Bool :=
  impl.zero_copy_impl.is_zero_copy T (zero_copy.R IT)

/-- `zero_copy_scoped<T, IT>::is_zero_copy`, that is `Impl::is_zero_copy` with
`Impl = zero_copy<T, IT>`. -/
def zero_copy_scoped.is_zero_copy (T : ObjTy) (IT : CursorTy) : Bool :=
  zero_copy.is_zero_copy T IT

/-- An instantiation that `traits::is_zero_copy` can be asked about. -/
inductive Accessor where
  | zero_copy (T : ObjTy) (IT : CursorTy)
  | zero_copy_scoped (T : ObjTy) (IT : CursorTy)
  deriving DecidableEq, Repr

/-- `traits::is_zero_copy<T>::value`, that is `T::is_zero_copy`. -/
def traits.is_zero_copy.value : Accessor → Bool
  | .zero_copy T IT => zero_copy.is_zero_copy T IT
  | .zero_copy_scoped T IT => zero_copy_scoped.is_zero_copy T IT

/-! ## Run-time level -/

/-- How C++ initialises an object of the element type.

* `valueInit` is value-initialisation (`T()`): zero for a scalar type.
* `defaultInit junk` is default-initialisation (`T t;`) of storage that held
  `junk`: a scalar type keeps what the storage held (an indeterminate value),
  a class type with a default constructor ignores it. -/
class CppInit (T : Type) where
  valueInit : T
  defaultInit : T → T

/-- The scalar type `int`. -/
instance : CppInit Int where
  valueInit := 0
  defaultInit junk := junk

/-- A `T&`: the storage a reference returned by `get` refers to. -/
inductive Handle where
  /-- the element of the sequence under the cursor at this position -/
  | elem (pos : Nat)
  /-- the member `_t` of the accessor -/
  | scratch
  deriving DecidableEq, Repr

/-- How a member function ends when dereferencing a cursor is partial: it
returns `a` in the state `s`, or it stops at the dereference of a cursor
outside the sequence, in the state `s` reached by then. -/
inductive Outcome (S : Type) (A : Type) where
  | ok (a : A) (s : S)
  | fault (s : S)
  deriving DecidableEq, Repr

/-- The value returned, if the function returned. -/
def Outcome.value {S A : Type} : Outcome S A → Option A
  | .ok a _ => some a
  | .fault _ => none

/-- The state after the function returned, if it returned. -/
def Outcome.result {S A : Type} : Outcome S A → Option S
  | .ok _ s => some s
  | .fault _ => none

/-- The same outcome seen in a larger state. -/
def Outcome.mapState {S S1 A : Type} (f : S → S1) : Outcome S A → Outcome S1 A
  | .ok a s => .ok a (f s)
  | .fault s => .fault (f s)

/-- A state together with the record of the calls of `zero_copy::set` made so
far: the cursors it was called with, in order. -/
structure Traced (S : Type) where
  st : S
  setCalls : List Nat
  deriving DecidableEq, Repr

namespace impl

/-- The primary template `zero_copy_impl<T, R>`: one data member `_t`. -/
structure zero_copy_impl (T : Type) where
  _t : T
  deriving DecidableEq, Repr

/-- The partial specialisation `zero_copy_impl<T, T&>`: no data member. -/
structure zero_copy_impl_ref (T : Type) where
  deriving DecidableEq, Repr

/-- `*it` read as an lvalue: defined only when the cursor is at a position
inside the sequence. -/
def deref {T : Type} (seq : List T) (it : Nat) : Option Handle :=
  if it < seq.length then some (.elem it) else none

/-- `*it = v`: defined only when the cursor is at a position inside the
sequence, and then replaces the element there. -/
def assign {T : Type} (seq : List T) (it : Nat) (v : T) : Option (List T) :=
  if it < seq.length then some (seq.set it v) else none

/-- The expression `*it` inside a member function: outside the sequence the
dereference is where the function stops, with the sequence as it is. -/
def derefOutcome {T : Type} (seq : List T) (it : Nat) : Outcome (List T) Handle :=
  match deref seq it with
  | some h => .ok h seq
  | none => .fault seq

/-- The statement `*it = v;` inside a member function: the cursor is
dereferenced first, so outside the sequence the function stops there, with the
sequence as it is. -/
def assignOutcome {T : Type} (seq : List T) (it : Nat) (v : T) : Outcome (List T) Unit :=
  match assign seq it v with
  | some s => .ok () s
  | none => .fault seq

/-- `zero_copy_impl<T, R>::get(it)`: `(void)it; return _t;`. -/
def zero_copy_impl.get {T : Type} (_self : zero_copy_impl T) (seq : List T) (_it : Nat) :
    Outcome (List T) Handle :=
  .ok .scratch seq

/-- `zero_copy_impl<T, R>::set(it) const`: `*it = _t;`. -/
def zero_copy_impl.set {T : Type} (self : zero_copy_impl T) (seq : List T) (it : Nat) :
    Outcome (List T) Unit :=
  assignOutcome seq it self._t

/-- `zero_copy_impl<T, T&>::get(it) const`: `return *it;`. -/
def zero_copy_impl_ref.get {T : Type} (_self : zero_copy_impl_ref T) (seq : List T) (it : Nat) :
    Outcome (List T) Handle :=
  derefOutcome seq it

/-- `zero_copy_impl<T, T&>::set(it) const`: `(void)it;`. -/
def zero_copy_impl_ref.set {T : Type} (_self : zero_copy_impl_ref T) (seq : List T) (_it : Nat) :
    Outcome (List T) Unit :=
  .ok () seq

end impl

/-- An object of class `zero_copy<T, IT>`: its member `_impl`, whose class is
the primary template (buffered variant) or the partial specialisation (direct
variant) according to `is_zero_copy`. -/
inductive zero_copy (T : Type) where
  | buffered (_impl : impl.zero_copy_impl T)
  | direct (_impl : impl.zero_copy_impl_ref T)
  deriving DecidableEq, Repr

/-- The variant of an accessor object: `true` for the direct one. -/
def zero_copy.isDirect {T : Type} : zero_copy T → Bool
  | .buffered _ => false
  | .direct _ => true

/-- Default-initialisation of a `zero_copy` (`ZC zc;`): the class has no
constructor, so `_t` is default-initialised; `junk` is what its storage
held. `isZeroCopy` is the static `is_zero_copy` of the instantiation. -/
def zero_copy.defaultInit {T : Type} [CppInit T] (isZeroCopy : Bool) (junk : T) : zero_copy T :=
  if isZeroCopy then .direct {} else .buffered ⟨CppInit.defaultInit junk⟩

/-- Value-initialisation of a `zero_copy` (`_impl()` in a member initialiser
list): the class has no user-provided constructor, so `_t` is
value-initialised. -/
def zero_copy.valueInit {T : Type} [CppInit T] (isZeroCopy : Bool) : zero_copy T :=
  if isZeroCopy then .direct {} else .buffered ⟨CppInit.valueInit⟩

/-- The state a caller of `zero_copy` sees: the sequence and the accessor. -/
structure World (T : Type) where
  seq : List T
  zc : zero_copy T
  deriving DecidableEq, Repr

/-- `zero_copy<T, IT>::get(it)`: `return _impl.get(it);`, on a state with the
record of `set` calls, which a call of `get` leaves as it is. -/
def zero_copy.getTraced {T : Type} (r : Traced (World T)) (it : Nat) :
    Outcome (Traced (World T)) Handle :=
  match r.st.zc with
  | .buffered i => (i.get r.st.seq it).mapState fun s => ⟨⟨s, r.st.zc⟩, r.setCalls⟩
  | .direct i => (i.get r.st.seq it).mapState fun s => ⟨⟨s, r.st.zc⟩, r.setCalls⟩

/-- `zero_copy<T, IT>::set(it)`: `_impl.set(it);`, on a state with the record
of `set` calls, in which the call enters its cursor. The accessor itself is
not modified (`set` of the implementation is `const`). -/
def zero_copy.setTraced {T : Type} (r : Traced (World T)) (it : Nat) :
    Outcome (Traced (World T)) Unit :=
  match r.st.zc with
  | .buffered i => (i.set r.st.seq it).mapState fun s => ⟨⟨s, r.st.zc⟩, r.setCalls ++ [it]⟩
  | .direct i => (i.set r.st.seq it).mapState fun s => ⟨⟨s, r.st.zc⟩, r.setCalls ++ [it]⟩

/-- What `zero_copy<T, IT>::get(it)` returns, when it returns. -/
def zero_copy.get {T : Type} (w : World T) (it : Nat) : Option Handle :=
  (zero_copy.getTraced ⟨w, []⟩ it).value

/-- The state `zero_copy<T, IT>::set(it)` leaves, when it returns. -/
def zero_copy.set {T : Type} (w : World T) (it : Nat) : Option (World T) :=
  (zero_copy.setTraced ⟨w, []⟩ it).result.map fun r => r.st

/-- Reading through a `T&`. -/
def Handle.read {T : Type} (w : World T) : Handle → Option T
  | .elem p => w.seq[p]?
  | .scratch =>
    match w.zc with
    | .buffered i => some i._t
    | .direct _ => none

/-- Assigning through a `T&`. -/
def Handle.write {T : Type} (w : World T) (h : Handle) (v : T) : Option (World T) :=
  match h with
  | .elem p => if p < w.seq.length then some { w with seq := w.seq.set p v } else none
  | .scratch =>
    match w.zc with
    | .buffered _ => some { w with zc := .buffered ⟨v⟩ }
    | .direct _ => none

/-- The function `do_work(int i, int& j)` of the tests: `j = i;`. -/
def do_work {T : Type} (w : World T) (i : T) (j : Handle) : Option (World T) :=
  j.write w i

/-- One write cycle of the tests on an accessor `zc`:
`do_work(v, zc.get(it)); zc.set(it);`. -/
def cycle {T : Type} (w : World T) (it : Nat) (v : T) : Option (World T) :=
  (zero_copy.get w it).bind fun h =>
  (do_work w v h).bind fun w1 =>
  zero_copy.set w1 it

/-- An object of class `zero_copy_scoped<T, IT>`: the members `_impl` and
`_it`. -/
structure zero_copy_scoped (T : Type) where
  _impl : zero_copy T
  _it : Nat
  deriving DecidableEq, Repr

/-- The state a caller of `zero_copy_scoped` sees during the scope: the
sequence and the scoped accessor. -/
structure ScopedWorld (T : Type) where
  seq : List T
  zc : zero_copy_scoped T
  deriving DecidableEq, Repr

/-- The part of a scoped state that the member `_impl` works on. -/
def ScopedWorld.inner {T : Type} (w : ScopedWorld T) : World T :=
  ⟨w.seq, w.zc._impl⟩

/-- The constructor `zero_copy_scoped(IT& it) : _impl(), _it(it)`. -/
def zero_copy_scoped.ctor {T : Type} [CppInit T] (isZeroCopy : Bool) (seq : List T) (it : Nat) :
    ScopedWorld T :=
  ⟨seq, ⟨zero_copy.valueInit isZeroCopy, it⟩⟩

/-- `zero_copy_scoped<T, IT>::get()`: `return _impl.get(_it);`, on a state
with the record of `set` calls. -/
def zero_copy_scoped.getTraced {T : Type} (r : Traced (ScopedWorld T)) :
    Outcome (Traced (ScopedWorld T)) Handle :=
  (zero_copy.getTraced ⟨r.st.inner, r.setCalls⟩ r.st.zc._it).mapState fun r1 =>
    ⟨⟨r1.st.seq, ⟨r1.st.zc, r.st.zc._it⟩⟩, r1.setCalls⟩

/-- The destructor `~zero_copy_scoped()`: `_impl.set(_it);`, on a state with
the record of `set` calls. The object is gone afterwards, the sequence
remains. -/
def zero_copy_scoped.dtorTraced {T : Type} (r : Traced (ScopedWorld T)) :
    Outcome (Traced (List T)) Unit :=
  (zero_copy.setTraced ⟨r.st.inner, r.setCalls⟩ r.st.zc._it).mapState fun r1 =>
    ⟨r1.st.seq, r1.setCalls⟩

/-- What `zero_copy_scoped<T, IT>::get()` returns, when it returns. -/
def zero_copy_scoped.get {T : Type} (w : ScopedWorld T) : Option Handle :=
  (zero_copy_scoped.getTraced ⟨w, []⟩).value

/-- The sequence the destructor `~zero_copy_scoped()` leaves, when it
returns. -/
def zero_copy_scoped.dtor {T : Type} (w : ScopedWorld T) : Option (List T) :=
  (zero_copy_scoped.dtorTraced ⟨w, []⟩).result.map fun r => r.st

/-- Assigning through a `T&` obtained from a scoped accessor. -/
def Handle.writeScoped {T : Type} (w : ScopedWorld T) (h : Handle) (v : T) :
    Option (ScopedWorld T) :=
  (h.write w.inner v).map fun w1 => ⟨w1.seq, ⟨w1.zc, w.zc._it⟩⟩

/-- One scope of the scoped tests with the cursor at `it`: the block
`ZC zc(it); do_work(v, zc.get());`, left at its closing brace, where the
destructor of `zc` runs. -/
def scopedCycle {T : Type} [CppInit T] (isZeroCopy : Bool) (seq : List T) (it : Nat) (v : T) :
    Option (List T) :=
  let w := zero_copy_scoped.ctor isZeroCopy seq it
  (zero_copy_scoped.get w).bind fun h =>
  (Handle.writeScoped w h v).bind fun w1 =>
  zero_copy_scoped.dtor w1

/-- The loop `for (int i = 0; i < N; i++, it++) body` of the tests, started
with `i` and the cursor at position `i` and `k` iterations to go; the body
receives the position and the sequence. -/
def forLoop {S : Type} (body : Nat → S → Option S) : Nat → Nat → S → Option S
  | 0, _, s => some s
  | k + 1, i, s => (body i s).bind (forLoop body k (i + 1))

/-- The test `Begin1` on a sequence of `N` elements: a fresh, default
initialised accessor in every iteration (`junk i` is what the storage of the
`i`-th one held), writing `val i` at position `i`. -/
def Begin1 {T : Type} [CppInit T] (isZeroCopy : Bool) (junk : Nat → T) (val : Nat → T)
    (seq : List T) : Option (List T) :=
  forLoop (fun i s =>
    (cycle ⟨s, zero_copy.defaultInit isZeroCopy (junk i)⟩ i (val i)).map fun w => w.seq)
    seq.length 0 seq

/-- The test `Begin2` on a sequence of `N` elements: one default initialised
accessor, declared before the loop and used in every iteration. -/
def Begin2 {T : Type} [CppInit T] (isZeroCopy : Bool) (junk : T) (val : Nat → T)
    (seq : List T) : Option (World T) :=
  forLoop (fun i w => cycle w i (val i)) seq.length 0
    ⟨seq, zero_copy.defaultInit isZeroCopy junk⟩

/-- The test `Begin` of the scoped accessor on a sequence of `N` elements: a
scoped accessor constructed on the cursor in every iteration. -/
def BeginScoped {T : Type} [CppInit T] (isZeroCopy : Bool) (val : Nat → T)
    (seq : List T) : Option (List T) :=
  forLoop (fun i s => scopedCycle isZeroCopy s i (val i)) seq.length 0 seq

/-- A finite list of write cycles `(p, v)` run on one accessor, in order. -/
def runCycles {T : Type} (w : World T) : List (Nat × T) → Option (World T)
  | [] => some w
  | c :: cs => (cycle w c.1 c.2).bind fun w1 => runCycles w1 cs

/-- The value read through the handle returned by a `get` at `it`. -/
def readAfterGet {T : Type} (w : World T) (it : Nat) : Option T :=
  (zero_copy.get w it).bind fun h => h.read w

/-- The value read through the handle returned by `get()` of a scoped
accessor. -/
def readAfterGetScoped {T : Type} (w : ScopedWorld T) : Option T :=
  (zero_copy_scoped.get w).bind fun h => h.read w.inner

/-- The expected content `[0, 1, ..., N-1]` of the tests. -/
def iota (N : Nat) : List Int :=
  (List.range N).map Int.ofNat

/-- A call of a member function of `zero_copy` by the caller. -/
inductive Call where
  /-- `zc.get(it);` -/
  | get (it : Nat)
  /-- `zc.set(it);` -/
  | set (it : Nat)
  deriving DecidableEq, Repr

/-- The effect of one call on the state; the handle returned by `get` is
dropped. -/
def call {T : Type} (w : World T) : Call → Option (World T)
  | .get it => (zero_copy.get w it).map fun _ => w
  | .set it => zero_copy.set w it

/-- A finite list of calls on one accessor, in order. -/
def runCalls {T : Type} (w : World T) : List Call → Option (World T)
  | [] => some w
  | c :: cs => (call w c).bind fun w1 => runCalls w1 cs

/-- A write cycle whose `set` is given another cursor than its `get`:
`do_work(v, zc.get(p)); zc.set(q);`. -/
def cycleAt {T : Type} (w : World T) (p q : Nat) (v : T) : Option (World T) :=
  (zero_copy.get w p).bind fun h =>
  (do_work w v h).bind fun w1 =>
  zero_copy.set w1 q

/-- What the code of a scope does between the construction of the scoped
accessor `zc` and the end of the scope. -/
inductive ScopeStep (T : Type) where
  /-- `zc.get();` -/
  | get
  /-- `do_work(v, zc.get());` -/
  | write (v : T)
  /-- `it++;` on the caller's own cursor variable -/
  | advance
  deriving DecidableEq, Repr

/-- The state during a scope: the sequence and the scoped accessor, the
caller's own cursor variable `it`, and the record of the `set` calls made so
far. -/
structure ScopeState (T : Type) where
  w : ScopedWorld T
  it : Nat
  setCalls : List Nat
  deriving DecidableEq, Repr

/-- Entering the scope: `ZC zc(it);`. The constructor copies the cursor into
`_it`; its body is empty. The record of `set` calls starts empty. -/
def ScopeState.enter {T : Type} [CppInit T] (isZeroCopy : Bool) (seq : List T) (it : Nat) :
    ScopeState T :=
  ⟨zero_copy_scoped.ctor isZeroCopy seq it, it, []⟩

/-- One step inside the scope. The state and the record of `set` calls after
a call of `get()` are the ones `zero_copy_scoped.getTraced` leaves. -/
def ScopeState.step {T : Type} (s : ScopeState T) : ScopeStep T → Option (ScopeState T)
  | .get =>
    (zero_copy_scoped.getTraced ⟨s.w, s.setCalls⟩).result.map fun r =>
      ⟨r.st, s.it, r.setCalls⟩
  | .write v =>
    match zero_copy_scoped.getTraced ⟨s.w, s.setCalls⟩ with
    | .ok h r => (Handle.writeScoped r.st h v).map fun w1 => ⟨w1, s.it, r.setCalls⟩
    | .fault _ => none
  | .advance => some { s with it := s.it + 1 }

/-- The steps of the scope, in order. -/
def ScopeState.run {T : Type} (s : ScopeState T) : List (ScopeStep T) → Option (ScopeState T)
  | [] => some s
  | c :: cs => (s.step c).bind fun s1 => s1.run cs

/-- Leaving the scope: the destructor runs. The result is the sequence and
the record of `set` calls that `zero_copy_scoped.dtorTraced` leaves. -/
def ScopeState.leave {T : Type} (s : ScopeState T) : Option (List T × List Nat) :=
  (zero_copy_scoped.dtorTraced ⟨s.w, s.setCalls⟩).result.map fun r => (r.st, r.setCalls)

/-- The number of `it++` among the steps of a scope. -/
def countAdvance {T : Type} : List (ScopeStep T) → Nat
  | [] => 0
  | .advance :: cs => countAdvance cs + 1
  | _ :: cs => countAdvance cs

/-- What every step inside a scope keeps: no `set` call so far, the captured
cursor, the variant, the length and the elements away from the captured
cursor. -/
def ScopeInv {T : Type} (seq : List T) (p : Nat) (s : ScopeState T) : Prop :=
  s.setCalls = [] ∧ s.w.zc._it = p ∧ s.w.seq.length = seq.length ∧
    ∀ q, q ≠ p → s.w.seq[q]? = seq[q]?

end z0rg

/-! ## Lemmas -/

namespace z0rg

theorem zero_copy.getTraced_buffered {T : Type} (seq : List T) (b : impl.zero_copy_impl T)
    (log : List Nat) (it : Nat) :
    zero_copy.getTraced ⟨⟨seq, .buffered b⟩, log⟩ it = .ok .scratch ⟨⟨seq, .buffered b⟩, log⟩ := by
  simp [zero_copy.getTraced, impl.zero_copy_impl.get, Outcome.mapState]

theorem zero_copy.getTraced_direct {T : Type} (seq : List T) (d : impl.zero_copy_impl_ref T)
    (log : List Nat) (it : Nat) :
    zero_copy.getTraced ⟨⟨seq, .direct d⟩, log⟩ it =
      if it < seq.length then .ok (.elem it) ⟨⟨seq, .direct d⟩, log⟩
      else .fault ⟨⟨seq, .direct d⟩, log⟩ := by
  by_cases h : it < seq.length <;>
  simp [zero_copy.getTraced, impl.zero_copy_impl_ref.get, impl.derefOutcome, impl.deref,
    Outcome.mapState, h]

theorem zero_copy.setTraced_buffered {T : Type} (seq : List T) (b : impl.zero_copy_impl T)
    (log : List Nat) (it : Nat) :
    zero_copy.setTraced ⟨⟨seq, .buffered b⟩, log⟩ it =
      if it < seq.length then .ok () ⟨⟨seq.set it b._t, .buffered b⟩, log ++ [it]⟩
      else .fault ⟨⟨seq, .buffered b⟩, log ++ [it]⟩ := by
  by_cases h : it < seq.length <;>
  simp [zero_copy.setTraced, impl.zero_copy_impl.set, impl.assignOutcome, impl.assign,
    Outcome.mapState, h]

theorem zero_copy.setTraced_direct {T : Type} (seq : List T) (d : impl.zero_copy_impl_ref T)
    (log : List Nat) (it : Nat) :
    zero_copy.setTraced ⟨⟨seq, .direct d⟩, log⟩ it = .ok () ⟨⟨seq, .direct d⟩, log ++ [it]⟩ := by
  simp [zero_copy.setTraced, impl.zero_copy_impl_ref.set, Outcome.mapState]

theorem zero_copy.get_buffered {T : Type} (seq : List T) (b : impl.zero_copy_impl T) (it : Nat) :
    zero_copy.get ⟨seq, .buffered b⟩ it = some .scratch := by
  simp [zero_copy.get, zero_copy.getTraced_buffered, Outcome.value]

theorem zero_copy.get_direct {T : Type} (seq : List T) (d : impl.zero_copy_impl_ref T) (it : Nat) :
    zero_copy.get ⟨seq, .direct d⟩ it = if it < seq.length then some (.elem it) else none := by
  by_cases h : it < seq.length <;>
  simp [zero_copy.get, zero_copy.getTraced_direct, Outcome.value, h]

theorem zero_copy.set_buffered {T : Type} (seq : List T) (b : impl.zero_copy_impl T) (it : Nat) :
    zero_copy.set ⟨seq, .buffered b⟩ it =
      if it < seq.length then some ⟨seq.set it b._t, .buffered b⟩ else none := by
  by_cases h : it < seq.length <;>
  simp [zero_copy.set, zero_copy.setTraced_buffered, Outcome.result, h]

theorem zero_copy.set_direct {T : Type} (seq : List T) (d : impl.zero_copy_impl_ref T) (it : Nat) :
    zero_copy.set ⟨seq, .direct d⟩ it = some ⟨seq, .direct d⟩ := by
  simp [zero_copy.set, zero_copy.setTraced_direct, Outcome.result]

theorem scoped_getTraced_buffered {T : Type} (seq : List T)
    (b : impl.zero_copy_impl T) (p : Nat) (log : List Nat) :
    zero_copy_scoped.getTraced ⟨⟨seq, ⟨.buffered b, p⟩⟩, log⟩ =
      .ok .scratch ⟨⟨seq, ⟨.buffered b, p⟩⟩, log⟩ := by
  simp [zero_copy_scoped.getTraced, ScopedWorld.inner, zero_copy.getTraced_buffered,
    Outcome.mapState]

theorem scoped_getTraced_direct {T : Type} (seq : List T)
    (d : impl.zero_copy_impl_ref T) (p : Nat) (log : List Nat) :
    zero_copy_scoped.getTraced ⟨⟨seq, ⟨.direct d, p⟩⟩, log⟩ =
      if p < seq.length then .ok (.elem p) ⟨⟨seq, ⟨.direct d, p⟩⟩, log⟩
      else .fault ⟨⟨seq, ⟨.direct d, p⟩⟩, log⟩ := by
  by_cases h : p < seq.length <;>
  simp [zero_copy_scoped.getTraced, ScopedWorld.inner, zero_copy.getTraced_direct,
    Outcome.mapState, h]

theorem scoped_dtorTraced_buffered {T : Type} (seq : List T)
    (b : impl.zero_copy_impl T) (p : Nat) (log : List Nat) :
    zero_copy_scoped.dtorTraced ⟨⟨seq, ⟨.buffered b, p⟩⟩, log⟩ =
      if p < seq.length then .ok () ⟨seq.set p b._t, log ++ [p]⟩
      else .fault ⟨seq, log ++ [p]⟩ := by
  by_cases h : p < seq.length <;>
  simp [zero_copy_scoped.dtorTraced, ScopedWorld.inner, zero_copy.setTraced_buffered,
    Outcome.mapState, h]

theorem scoped_dtorTraced_direct {T : Type} (seq : List T)
    (d : impl.zero_copy_impl_ref T) (p : Nat) (log : List Nat) :
    zero_copy_scoped.dtorTraced ⟨⟨seq, ⟨.direct d, p⟩⟩, log⟩ = .ok () ⟨seq, log ++ [p]⟩ := by
  simp [zero_copy_scoped.dtorTraced, ScopedWorld.inner, zero_copy.setTraced_direct,
    Outcome.mapState]

theorem zero_copy_scoped.get_eq {T : Type} (w : ScopedWorld T) :
    zero_copy_scoped.get w = zero_copy.get w.inner w.zc._it := by
  obtain ⟨seq, ⟨zc, p⟩⟩ := w
  cases zc with
  | buffered b =>
    simp [zero_copy_scoped.get, scoped_getTraced_buffered, ScopedWorld.inner,
      zero_copy.get_buffered, Outcome.value]
  | direct d =>
    by_cases h : p < seq.length <;>
    simp [zero_copy_scoped.get, scoped_getTraced_direct, ScopedWorld.inner,
      zero_copy.get_direct, Outcome.value, h]

theorem zero_copy_scoped.dtor_eq {T : Type} (w : ScopedWorld T) :
    zero_copy_scoped.dtor w = (zero_copy.set w.inner w.zc._it).map fun w1 => w1.seq := by
  obtain ⟨seq, ⟨zc, p⟩⟩ := w
  cases zc with
  | buffered b =>
    by_cases h : p < seq.length <;>
    simp [zero_copy_scoped.dtor, scoped_dtorTraced_buffered, ScopedWorld.inner,
      zero_copy.set_buffered, Outcome.result, h]
  | direct d =>
    simp [zero_copy_scoped.dtor, scoped_dtorTraced_direct, ScopedWorld.inner,
      zero_copy.set_direct, Outcome.result]

theorem cycle_buffered {T : Type} (seq : List T) (b : impl.zero_copy_impl T) (p : Nat) (v : T)
    (hp : p < seq.length) :
    cycle ⟨seq, .buffered b⟩ p v = some ⟨seq.set p v, .buffered ⟨v⟩⟩ := by
  simp [cycle, zero_copy.get_buffered, zero_copy.get_direct, do_work, Handle.write,
      zero_copy.set_buffered, zero_copy.set_direct, hp]

theorem cycle_direct {T : Type} (seq : List T) (d : impl.zero_copy_impl_ref T) (p : Nat) (v : T)
    (hp : p < seq.length) :
    cycle ⟨seq, .direct d⟩ p v = some ⟨seq.set p v, .direct d⟩ := by
  simp [cycle, zero_copy.get_buffered, zero_copy.get_direct, do_work, Handle.write,
      zero_copy.set_buffered, zero_copy.set_direct, hp]

theorem cycle_seq {T : Type} (w : World T) (p : Nat) (v : T) (hp : p < w.seq.length) :
    ∃ w1, cycle w p v = some w1 ∧ w1.seq = w.seq.set p v ∧ w1.zc.isDirect = w.zc.isDirect := by
  obtain ⟨seq, zc⟩ := w
  cases zc with
  | buffered b => exact ⟨_, cycle_buffered seq b p v hp, rfl, rfl⟩
  | direct d => exact ⟨_, cycle_direct seq d p v hp, rfl, rfl⟩

theorem scopedCycle_eq {T : Type} [CppInit T] (isZeroCopy : Bool) (seq : List T) (p : Nat) (v : T)
    (hp : p < seq.length) :
    scopedCycle isZeroCopy seq p v = some (seq.set p v) := by
  cases isZeroCopy <;>
  simp [scopedCycle, zero_copy_scoped.ctor, zero_copy_scoped.get_eq,
      zero_copy_scoped.dtor_eq, Handle.writeScoped, ScopedWorld.inner,
      zero_copy.valueInit, zero_copy.get_buffered, zero_copy.get_direct,
      zero_copy.set_buffered, zero_copy.set_direct, Handle.write, hp]

theorem take_succ_set {T : Type} (seq : List T) (i : Nat) (v : T) (hi : i < seq.length) :
    (seq.set i v).take (i + 1) = seq.take i ++ [v] := by
  induction seq generalizing i with
  | nil => simp at hi
  | cons a l ih =>
    cases i with
    | zero => simp
    | succ j =>
      have hj : j < l.length := by simpa using hi
      simp [ih j hj]

/-- A loop whose body stores `val i` at position `i` overwrites the positions
`i, ..., i + k - 1` and keeps what is before them. -/
theorem forLoop_set {T : Type} (body : Nat → List T → Option (List T)) (val : Nat → T)
    (hbody : ∀ i s, i < s.length → body i s = some (s.set i (val i))) :
    ∀ (k i : Nat) (seq : List T), i + k = seq.length →
      forLoop body k i seq = some (seq.take i ++ (List.range' i k).map val) := by
  intro k
  induction k with
  | zero =>
    intro i seq h
    have hle : seq.length ≤ i := by omega
    simp [forLoop, List.take_of_length_le hle]
  | succ k ih =>
    intro i seq h
    have hi : i < seq.length := by omega
    have hlen : (i + 1) + k = (seq.set i (val i)).length := by simp; omega
    simp [forLoop, hbody i seq hi, ih (i + 1) _ hlen, take_succ_set seq i (val i) hi,
      List.range'_succ]

theorem forLoop_set_all {T : Type} (body : Nat → List T → Option (List T)) (val : Nat → T)
    (hbody : ∀ i s, i < s.length → body i s = some (s.set i (val i))) (seq : List T) :
    forLoop body seq.length 0 seq = some ((List.range seq.length).map val) := by
  rw [forLoop_set body val hbody seq.length 0 seq (by simp)]
  simp [List.range_eq_range']

theorem forLoop_cycle {T : Type} (val : Nat → T) :
    ∀ (k i : Nat) (w : World T), i + k = w.seq.length →
      ∃ w1, forLoop (fun j w0 => cycle w0 j (val j)) k i w = some w1 ∧
        w1.seq = w.seq.take i ++ (List.range' i k).map val ∧
        w1.zc.isDirect = w.zc.isDirect := by
  intro k
  induction k with
  | zero =>
    intro i w h
    have hle : w.seq.length ≤ i := by omega
    exact ⟨w, by simp [forLoop], by simp [List.take_of_length_le hle], rfl⟩
  | succ k ih =>
    intro i w h
    have hi : i < w.seq.length := by omega
    obtain ⟨w1, hc, hs, hd⟩ := cycle_seq w i (val i) hi
    have hlen : (i + 1) + k = w1.seq.length := by rw [hs]; simp; omega
    obtain ⟨w2, hl, hs2, hd2⟩ := ih (i + 1) w1 hlen
    refine ⟨w2, by simp [forLoop, hc, hl], ?_, by rw [hd2, hd]⟩
    rw [hs2, hs, take_succ_set w.seq i (val i) hi]
    simp [List.range'_succ]

theorem runCycles_seq {T : Type} :
    ∀ (cs : List (Nat × T)) (w : World T), (∀ c ∈ cs, c.1 < w.seq.length) →
      ∃ w1, runCycles w cs = some w1 ∧
        w1.seq = cs.foldl (fun s c => s.set c.1 c.2) w.seq := by
  intro cs
  induction cs with
  | nil => intro w _; exact ⟨w, rfl, rfl⟩
  | cons c cs ih =>
    intro w h
    obtain ⟨w1, hc, hs, _⟩ := cycle_seq w c.1 c.2 (h c (by simp))
    have h1 : ∀ c0 ∈ cs, c0.1 < w1.seq.length := by
      intro c0 hc0
      rw [hs]
      simpa using h c0 (by simp [hc0])
    obtain ⟨w2, hr, hs2⟩ := ih w1 h1
    exact ⟨w2, by simp [runCycles, hc, hr], by rw [hs2, hs]; rfl⟩

theorem getElem?_set_frame {T : Type} (seq : List T) (p : Nat) (v : T) (hp : p < seq.length) :
    (seq.set p v)[p]? = some v ∧ (∀ q, q ≠ p → (seq.set p v)[q]? = seq[q]?) ∧
      (seq.set p v).length = seq.length := by
  refine ⟨by simp [hp], ?_, by simp⟩
  intro q hq
  simp [List.getElem?_set, Ne.symm hq]

/-! ## The claims -/

/-- C1. Round trip with a fresh accessor per position: for every `N`, every
initial sequence of length `N` and either variant, running for
`i = 0 .. N-1` the cycle "default-initialise a fresh `zero_copy`, `get` at
position `i`, write `i` through the handle, `set` at position `i`" (the test
`Begin1`) returns, and leaves the sequence equal to `[0, 1, ..., N-1]`, of
length `N`; whatever the fresh accessors' storage held. -/
theorem roundtrip_fresh_accessor (isZeroCopy : Bool) (junk : Nat → Int) (N : Nat)
    (seq : List Int) (hN : seq.length = N) :
    Begin1 isZeroCopy junk Int.ofNat seq = some (iota N) ∧
      (iota N).length = N := by
  subst hN
  refine ⟨?_, by simp [iota]⟩
  unfold Begin1 iota
  apply forLoop_set_all
  intro i s hi
  cases isZeroCopy
  · simp [zero_copy.defaultInit, cycle_buffered s _ i _ hi]
  · simp [zero_copy.defaultInit, cycle_direct s _ i _ hi]

theorem roundtrip_fresh_accessor_witness :
    ([7, 7, 7] : List Int).length = 3 ∧
      Begin1 false (fun _ => 5) Int.ofNat [7, 7, 7] = some (iota 3) ∧
      (iota 3).length = 3 :=
  ⟨by decide, roundtrip_fresh_accessor false (fun _ => 5) 3 [7, 7, 7] (by decide)⟩

/-- C2. Capability probe: for every element type `T` and every cursor type
`IT` with `R = iterator_traits<IT>::reference`, `zero_copy<T, IT>::is_zero_copy`
is true if and only if `R` is exactly `T&`; it is false for every other `R`:
a value or proxy object type, an rvalue reference, `const T&` (for `T` not
itself `const`), a reference to a type other than `T`. It is true for the
cursors of a vector of `int` and of a list of `int` paired with `T = int`. -/
theorem is_zero_copy_iff_lref (T : ObjTy) (IT : CursorTy) :
    (zero_copy.is_zero_copy T IT = true ↔ zero_copy.R IT = Ty.lref T) ∧
      (zero_copy.R IT ≠ Ty.lref T → zero_copy.is_zero_copy T IT = false) ∧
      (∀ t, zero_copy.R IT = Ty.value t → zero_copy.is_zero_copy T IT = false) ∧
      (∀ t, zero_copy.R IT = Ty.rref t → zero_copy.is_zero_copy T IT = false) ∧
      (T.addConst ≠ T → zero_copy.R IT = Ty.lref T.addConst →
        zero_copy.is_zero_copy T IT = false) ∧
      (∀ t, t ≠ T → zero_copy.R IT = Ty.lref t → zero_copy.is_zero_copy T IT = false) ∧
      zero_copy.is_zero_copy (ObjTy.int false) vector_int_iterator = true ∧
      zero_copy.is_zero_copy (ObjTy.int false) list_int_iterator = true := by
  have key : zero_copy.is_zero_copy T IT = true ↔ zero_copy.R IT = Ty.lref T := by
    unfold zero_copy.is_zero_copy impl.zero_copy_impl.is_zero_copy impl.matchesSpecialization
    cases h : zero_copy.R IT with
    | value t => simp [impl.deduceSecond]
    | lref t => simp [impl.deduceSecond]
    | rref t => simp [impl.deduceSecond]
  have neg : zero_copy.R IT ≠ Ty.lref T → zero_copy.is_zero_copy T IT = false := by
    intro h
    cases hz : zero_copy.is_zero_copy T IT with
    | false => rfl
    | true => exact absurd (key.mp hz) h
  refine ⟨key, neg, ?_, ?_, ?_, ?_, by decide, by decide⟩
  · intro t h
    exact neg (by rw [h]; simp)
  · intro t h
    exact neg (by rw [h]; simp)
  · intro hc h
    exact neg (by rw [h]; simpa using hc)
  · intro t ht h
    exact neg (by rw [h]; simpa using ht)

theorem is_zero_copy_iff_lref_witness :
    zero_copy.is_zero_copy (ObjTy.int false) ⟨Ty.lref (ObjTy.int true)⟩ = false :=
  (is_zero_copy_iff_lref (ObjTy.int false) ⟨Ty.lref (ObjTy.int true)⟩).2.2.2.2.1
    (by decide) (by decide)

/-- C3. Scoped guarantee: for either variant, every sequence, every valid
position `p` and every value `v`, constructing a `zero_copy_scoped` on a cursor
at `p`, writing `v` through the handle returned by `get()` and ending the scope
(the destructor runs, no explicit `set`) returns and leaves the sequence with
`v` at `p`, every other position and the length unchanged. Doing this for
`i = 0 .. N-1` with value `i` (the scoped test) yields `[0, 1, ..., N-1]`. -/
theorem scoped_guarantee {T : Type} [CppInit T] (isZeroCopy : Bool) :
    (∀ (seq : List T) (p : Nat) (v : T), p < seq.length →
      ∃ s1, scopedCycle isZeroCopy seq p v = some s1 ∧ s1[p]? = some v ∧
        (∀ q, q ≠ p → s1[q]? = seq[q]?) ∧ s1.length = seq.length) ∧
      (∀ seq : List Int,
        BeginScoped isZeroCopy Int.ofNat seq = some (iota seq.length)) := by
  constructor
  · intro seq p v hp
    exact ⟨seq.set p v, scopedCycle_eq isZeroCopy seq p v hp, getElem?_set_frame seq p v hp⟩
  · intro seq
    unfold BeginScoped iota
    apply forLoop_set_all
    intro i s hi
    exact scopedCycle_eq isZeroCopy s i _ hi

theorem scoped_guarantee_witness :
    ∃ s1, scopedCycle false ([4, 5, 6] : List Int) 1 9 = some s1 ∧ s1[1]? = some 9 ∧
      (∀ q, q ≠ 1 → s1[q]? = ([4, 5, 6] : List Int)[q]?) ∧
      s1.length = ([4, 5, 6] : List Int).length :=
  (scoped_guarantee false).1 [4, 5, 6] 1 9 (by decide)

/-- C4. Variant transparency: for every initial sequence and every finite list
of write cycles (`get` at a valid position `p`, write `v` through the handle,
`set` at `p`) run on one accessor, both variants return, and the final sequence
of the direct variant equals the final sequence of the buffered variant. -/
theorem variant_transparency {T : Type} (seq : List T) (cs : List (Nat × T))
    (d : impl.zero_copy_impl_ref T) (b : impl.zero_copy_impl T)
    (hvalid : ∀ c ∈ cs, c.1 < seq.length) :
    ∃ wd wb, runCycles ⟨seq, .direct d⟩ cs = some wd ∧
      runCycles ⟨seq, .buffered b⟩ cs = some wb ∧ wd.seq = wb.seq := by
  obtain ⟨wd, hd, hsd⟩ := runCycles_seq cs ⟨seq, .direct d⟩ hvalid
  obtain ⟨wb, hb, hsb⟩ := runCycles_seq cs ⟨seq, .buffered b⟩ hvalid
  exact ⟨wd, wb, hd, hb, by rw [hsd, hsb]⟩

theorem variant_transparency_witness :
    ∃ wd wb, runCycles ⟨([1, 2, 3] : List Int), .direct {}⟩ [(2, 8), (0, 9), (2, 7)] = some wd ∧
      runCycles ⟨([1, 2, 3] : List Int), .buffered ⟨0⟩⟩ [(2, 8), (0, 9), (2, 7)] = some wb ∧
      wd.seq = wb.seq :=
  variant_transparency [1, 2, 3] [(2, 8), (0, 9), (2, 7)] {} ⟨0⟩ (by decide)

/-- C5. Buffered commit: in the buffered variant, for every sequence, every
valid cursor position `p` and every scratch value `s` held by the accessor,
`set` at `p` returns a state whose sequence has `s` at `p`, all other positions
and the length unchanged, and whose accessor still holds `s`. -/
theorem buffered_set_frame {T : Type} (seq : List T) (s : T) (p : Nat) (hp : p < seq.length) :
    ∃ w1, zero_copy.set ⟨seq, .buffered ⟨s⟩⟩ p = some w1 ∧ w1.seq[p]? = some s ∧
      (∀ q, q ≠ p → w1.seq[q]? = seq[q]?) ∧ w1.seq.length = seq.length ∧
      w1.zc = .buffered ⟨s⟩ := by
  refine ⟨⟨seq.set p s, .buffered ⟨s⟩⟩, ?_, ?_⟩
  · simp [zero_copy.set_buffered, zero_copy.set_direct, hp]
  · obtain ⟨h1, h2, h3⟩ := getElem?_set_frame seq p s hp
    exact ⟨h1, h2, h3, rfl⟩

theorem buffered_set_frame_witness :
    ∃ w1, zero_copy.set ⟨([4, 5, 6] : List Int), .buffered ⟨9⟩⟩ 2 = some w1 ∧
      w1.seq[2]? = some 9 ∧ (∀ q, q ≠ 2 → w1.seq[q]? = ([4, 5, 6] : List Int)[q]?) ∧
      w1.seq.length = ([4, 5, 6] : List Int).length ∧ w1.zc = .buffered ⟨9⟩ :=
  buffered_set_frame [4, 5, 6] 9 2 (by decide)

/-- C6. Direct commit is a no-op: in the direct variant, for every sequence
and every cursor, inside the sequence or not, `set` returns and leaves the
sequence and the accessor exactly as they were. -/
theorem direct_set_noop {T : Type} (seq : List T) (d : impl.zero_copy_impl_ref T) (it : Nat) :
    zero_copy.set ⟨seq, .direct d⟩ it = some ⟨seq, .direct d⟩ := by
  simp [zero_copy.set_buffered, zero_copy.set_direct]

/-- C7. Direct acquire aliases the element: in the direct variant, for every
sequence and every valid cursor position `p`, `get` at `p` returns a handle
that reads as the element at `p`, and writing `v` through it makes the
sequence hold `v` at `p` at once (no `set` call), all other positions, the
length and the accessor unchanged. -/
theorem direct_get_aliases {T : Type} (seq : List T) (d : impl.zero_copy_impl_ref T) (p : Nat)
    (v : T) (hp : p < seq.length) :
    ∃ h, zero_copy.get ⟨seq, .direct d⟩ p = some h ∧
      h.read ⟨seq, .direct d⟩ = some seq[p] ∧
      ∃ w1, h.write ⟨seq, .direct d⟩ v = some w1 ∧ w1.seq[p]? = some v ∧
        (∀ q, q ≠ p → w1.seq[q]? = seq[q]?) ∧ w1.seq.length = seq.length ∧
        w1.zc = .direct d := by
  refine ⟨.elem p, ?_, ?_, ⟨seq.set p v, .direct d⟩, ?_, ?_⟩
  · simp [zero_copy.get_buffered, zero_copy.get_direct, hp]
  · simp [Handle.read, hp]
  · simp [Handle.write, hp]
  · obtain ⟨h1, h2, h3⟩ := getElem?_set_frame seq p v hp
    exact ⟨h1, h2, h3, rfl⟩

theorem direct_get_aliases_witness :
    ∃ h, zero_copy.get ⟨([4, 5, 6] : List Int), .direct {}⟩ 1 = some h ∧
      h.read ⟨([4, 5, 6] : List Int), .direct {}⟩ = some 5 ∧
      ∃ w1, h.write ⟨([4, 5, 6] : List Int), .direct {}⟩ 9 = some w1 ∧ w1.seq[1]? = some 9 ∧
        (∀ q, q ≠ 1 → w1.seq[q]? = ([4, 5, 6] : List Int)[q]?) ∧
        w1.seq.length = ([4, 5, 6] : List Int).length ∧ w1.zc = .direct {} :=
  direct_get_aliases [4, 5, 6] {} 1 9 (by decide)

/-- C8. Commit idempotence: for either variant, every accessor state, every
sequence and every valid cursor position `p`, `set` at `p` returns, and a
second `set` at `p` with no write in between returns the same sequence and
accessor state as the first. -/
theorem set_idempotent {T : Type} (w : World T) (p : Nat) (hp : p < w.seq.length) :
    ∃ w1, zero_copy.set w p = some w1 ∧ zero_copy.set w1 p = some w1 ∧
      (zero_copy.set w p).bind (fun w0 => zero_copy.set w0 p) = zero_copy.set w p := by
  obtain ⟨seq, zc⟩ := w
  cases zc with
  | buffered b =>
    refine ⟨⟨seq.set p b._t, .buffered b⟩, ?_, ?_, ?_⟩ <;>
    simp_all [zero_copy.set_buffered, zero_copy.set_direct]
  | direct d =>
    refine ⟨⟨seq, .direct d⟩, ?_, ?_, ?_⟩ <;>
    simp [zero_copy.set_buffered, zero_copy.set_direct]

theorem set_idempotent_witness :
    ∃ w1, zero_copy.set ⟨([4, 5, 6] : List Int), .buffered ⟨9⟩⟩ 0 = some w1 ∧
      zero_copy.set w1 0 = some w1 ∧
      (zero_copy.set ⟨([4, 5, 6] : List Int), .buffered ⟨9⟩⟩ 0).bind
        (fun w0 => zero_copy.set w0 0) = zero_copy.set ⟨([4, 5, 6] : List Int), .buffered ⟨9⟩⟩ 0 :=
  set_idempotent ⟨[4, 5, 6], .buffered ⟨9⟩⟩ 0 (by decide)

/-- C9. Reuse: for either variant, when one default-initialised accessor is
reused over a whole pass (for `i = 0 .. N-1`: `get` at `i`, write `val i`
through the handle, `set` at `i`; the test `Begin2`), the pass returns and the
final sequence is exactly `[val 0, ..., val (N-1)]`: every position `i` holds
`val i`, none the value written for an earlier position. With `val i = i`
this is `[0, 1, ..., N-1]`. -/
theorem reuse_pass {T : Type} [CppInit T] (isZeroCopy : Bool) (junk : T) (val : Nat → T)
    (seq : List T) :
    (∃ w1, Begin2 isZeroCopy junk val seq = some w1 ∧
      w1.seq = (List.range seq.length).map val ∧
      (∀ i, i < seq.length → w1.seq[i]? = some (val i)) ∧
      w1.seq.length = seq.length) ∧
    (∀ (junk0 : Int) (seq0 : List Int),
      (Begin2 isZeroCopy junk0 Int.ofNat seq0).map (fun w => w.seq) =
        some (iota seq0.length)) := by
  have main : ∀ (S : Type) [CppInit S] (j : S) (f : Nat → S) (l : List S),
      ∃ w1, Begin2 isZeroCopy j f l = some w1 ∧ w1.seq = (List.range l.length).map f := by
    intro S _ j f l
    obtain ⟨w1, h1, h2, _⟩ :=
      forLoop_cycle f l.length 0 ⟨l, zero_copy.defaultInit isZeroCopy j⟩ (by simp)
    exact ⟨w1, h1, by simpa [List.range_eq_range'] using h2⟩
  constructor
  · obtain ⟨w1, h1, h2⟩ := main T junk val seq
    refine ⟨w1, h1, h2, ?_, by simp [h2]⟩
    intro i hi
    simp [h2, hi]
  · intro junk0 seq0
    obtain ⟨w1, h1, h2⟩ := main Int junk0 Int.ofNat seq0
    simp [h1, h2, iota]

/-- C10 (as the claim states it, refuted). A default-initialised buffered
`zero_copy<int, IT>` (`ZC zc;`) whose storage held 7: the value read through
the handle returned by the first `get`, before any write, is 7, not the zero
value of `int`. -/
theorem default_init_scratch_not_zero :
    readAfterGet ⟨([5] : List Int), zero_copy.defaultInit false (7 : Int)⟩ 0 = some 7 ∧
      readAfterGet ⟨([5] : List Int), zero_copy.defaultInit false (7 : Int)⟩ 0 ≠
        some (CppInit.valueInit : Int) := by
  decide

/-- C10 (amended). Buffered initial value: the buffered accessor owned by a
freshly constructed `zero_copy_scoped` is value-initialised, so the value read
through the handle returned by its first `get()`, before any write, is the
zero / value-initialised `T`; for a freshly default-initialised buffered
`zero_copy` that value is the default-initialised `T`, which for `int` is
whatever the storage held. Both hold for every sequence and every cursor. -/
theorem buffered_initial_value {T : Type} [CppInit T] (seq : List T) (it : Nat) (junk : T) :
    readAfterGetScoped (zero_copy_scoped.ctor false seq it) = some CppInit.valueInit ∧
      readAfterGet ⟨seq, zero_copy.defaultInit false junk⟩ it = some (CppInit.defaultInit junk) ∧
      (∀ (seq0 : List Int) (junk0 : Int),
        readAfterGet ⟨seq0, zero_copy.defaultInit false junk0⟩ it = some junk0) := by
  refine ⟨?_, ?_, ?_⟩
  · simp [readAfterGetScoped, zero_copy_scoped.ctor, zero_copy_scoped.get_eq,
      ScopedWorld.inner, zero_copy.valueInit, zero_copy.get_buffered,
      zero_copy.get_direct, Handle.read]
  · simp [readAfterGet, zero_copy.defaultInit, zero_copy.get_buffered,
      zero_copy.get_direct, Handle.read]
  · intro seq0 junk0
    simp [readAfterGet, zero_copy.defaultInit, zero_copy.get_buffered,
      zero_copy.get_direct, Handle.read, CppInit.defaultInit]

/-! ## Lemmas for the call sequences and the scope -/

theorem scope_step {T : Type} (seq : List T) (p : Nat) (hp : p < seq.length)
    (s : ScopeState T) (hs : ScopeInv seq p s) (c : ScopeStep T) :
    ∃ s1, s.step c = some s1 ∧ ScopeInv seq p s1 ∧
      s1.it = s.it + countAdvance [c] := by
  obtain ⟨⟨sq, ⟨zc, it0⟩⟩, it, log⟩ := s
  obtain ⟨h1, h2, h3, h4⟩ := hs
  simp only at h1 h2 h3 h4
  subst h1 h2
  have hp1 : it0 < sq.length := by rw [h3]; exact hp
  cases c with
  | get =>
    cases zc with
    | buffered b =>
      exact ⟨⟨⟨sq, ⟨.buffered b, it0⟩⟩, it, []⟩,
        by simp [ScopeState.step, scoped_getTraced_buffered,
          scoped_getTraced_direct, Outcome.result],
        ⟨rfl, rfl, h3, h4⟩, by simp [countAdvance]⟩
    | direct d =>
      exact ⟨⟨⟨sq, ⟨.direct d, it0⟩⟩, it, []⟩,
        by simp [ScopeState.step, scoped_getTraced_buffered,
          scoped_getTraced_direct, Outcome.result, hp1],
        ⟨rfl, rfl, h3, h4⟩, by simp [countAdvance]⟩
  | write v =>
    cases zc with
    | buffered b =>
      exact ⟨⟨⟨sq, ⟨.buffered ⟨v⟩, it0⟩⟩, it, []⟩,
        by simp [ScopeState.step, scoped_getTraced_buffered,
          scoped_getTraced_direct, Outcome.result, Handle.writeScoped,
          ScopedWorld.inner, Handle.write],
        ⟨rfl, rfl, h3, h4⟩, by simp [countAdvance]⟩
    | direct d =>
      refine ⟨⟨⟨sq.set it0 v, ⟨.direct d, it0⟩⟩, it, []⟩,
        by simp [ScopeState.step, scoped_getTraced_buffered,
          scoped_getTraced_direct, Outcome.result, Handle.writeScoped,
          ScopedWorld.inner, Handle.write, hp1],
        ⟨rfl, rfl, by simpa using h3, ?_⟩, by simp [countAdvance]⟩
      intro q hq
      rw [(getElem?_set_frame sq it0 v hp1).2.1 q hq]
      exact h4 q hq
  | advance =>
    exact ⟨⟨⟨sq, ⟨zc, it0⟩⟩, it + 1, []⟩, by simp [ScopeState.step], ⟨rfl, rfl, h3, h4⟩,
      by simp [countAdvance]⟩

theorem scope_run {T : Type} (seq : List T) (p : Nat) (hp : p < seq.length) :
    ∀ (cs : List (ScopeStep T)) (s : ScopeState T), ScopeInv seq p s →
      ∃ s1, s.run cs = some s1 ∧ ScopeInv seq p s1 ∧ s1.it = s.it + countAdvance cs := by
  intro cs
  induction cs with
  | nil => intro s hs; exact ⟨s, rfl, hs, by simp [countAdvance]⟩
  | cons c cs ih =>
    intro s hs
    obtain ⟨s1, h1, hs1, hit1⟩ := scope_step seq p hp s hs c
    obtain ⟨s2, h2, hs2, hit2⟩ := ih s1 hs1
    refine ⟨s2, by simp [ScopeState.run, h1, h2], hs2, ?_⟩
    rw [hit2, hit1]
    cases c <;> simp [countAdvance]; omega

theorem scope_leave {T : Type} (seq : List T) (p : Nat) (hp : p < seq.length)
    (s : ScopeState T) (hs : ScopeInv seq p s) :
    ∃ seq1, s.leave = some (seq1, [p]) ∧ seq1.length = seq.length ∧
      ∀ q, q ≠ p → seq1[q]? = seq[q]? := by
  obtain ⟨⟨sq, ⟨zc, it0⟩⟩, it, log⟩ := s
  obtain ⟨h1, h2, h3, h4⟩ := hs
  simp only at h1 h2 h3 h4
  subst h1 h2
  have hp1 : it0 < sq.length := by rw [h3]; exact hp
  cases zc with
  | buffered b =>
    refine ⟨sq.set it0 b._t, by simp [ScopeState.leave, scoped_dtorTraced_buffered,
      scoped_dtorTraced_direct, Outcome.result, hp1], by simpa using h3, ?_⟩
    intro q hq
    rw [(getElem?_set_frame sq it0 b._t hp1).2.1 q hq]
    exact h4 q hq
  | direct d =>
    exact ⟨sq, by simp [ScopeState.leave, scoped_dtorTraced_buffered,
      scoped_dtorTraced_direct, Outcome.result], h3, h4⟩

theorem scope_enter_inv {T : Type} [CppInit T] (isZeroCopy : Bool) (seq : List T) (p : Nat) :
    ScopeInv seq p (ScopeState.enter isZeroCopy seq p) := by
  refine ⟨rfl, rfl, rfl, ?_⟩
  intro q _
  rfl

theorem call_zc {T : Type} (w w1 : World T) (c : Call) (h : call w c = some w1) :
    w1.zc = w.zc := by
  obtain ⟨seq, zc⟩ := w
  cases c with
  | get it =>
    simp only [call, Option.map_eq_some'] at h
    obtain ⟨_, _, h2⟩ := h
    rw [← h2]
  | set it =>
    cases zc with
    | buffered b =>
      simp only [call, zero_copy.set_buffered] at h
      by_cases hit : it < seq.length
      · simp only [hit, if_true, Option.some.injEq] at h
        rw [← h]
      · simp [hit] at h
    | direct d =>
      simp only [call, zero_copy.set_direct, Option.some.injEq] at h
      rw [← h]

theorem runCalls_zc {T : Type} :
    ∀ (cs : List Call) (w w1 : World T), runCalls w cs = some w1 → w1.zc = w.zc := by
  intro cs
  induction cs with
  | nil =>
    intro w w1 h
    simp only [runCalls, Option.some.injEq] at h
    rw [h]
  | cons c cs ih =>
    intro w w1 h
    simp only [runCalls, Option.bind_eq_some] at h
    obtain ⟨w0, h0, h1⟩ := h
    rw [ih w0 w1 h1, call_zc w w0 c h0]

theorem set_eq_self {T : Type} (l : List T) (p : Nat) (v : T) (h : l[p]? = some v) :
    l.set p v = l := by
  apply List.ext_getElem?
  intro i
  by_cases hi : p = i
  · subst hi
    rw [List.getElem?_set, h]
    have hp : p < l.length := by
      rcases Nat.lt_or_ge p l.length with hlt | hge
      · exact hlt
      · rw [List.getElem?_eq_none hge] at h
        exact absurd h (by simp)
    simp [hp]
  · simp [List.getElem?_set, hi]

theorem cycleAt_buffered {T : Type} (seq : List T) (b : impl.zero_copy_impl T) (p q : Nat) (v : T)
    (hq : q < seq.length) :
    cycleAt ⟨seq, .buffered b⟩ p q v = some ⟨seq.set q v, .buffered ⟨v⟩⟩ := by
  simp [cycleAt, zero_copy.get_buffered, zero_copy.get_direct, do_work, Handle.write,
      zero_copy.set_buffered, zero_copy.set_direct, hq]

theorem cycleAt_direct {T : Type} (seq : List T) (d : impl.zero_copy_impl_ref T) (p q : Nat) (v : T)
    (hp : p < seq.length) :
    cycleAt ⟨seq, .direct d⟩ p q v = some ⟨seq.set p v, .direct d⟩ := by
  simp [cycleAt, zero_copy.get_buffered, zero_copy.get_direct, do_work, Handle.write,
      zero_copy.set_buffered, zero_copy.set_direct, hp]

/-! ## The claims, continued -/

/-- C12. Scoped commit happens exactly once, at the captured cursor: for
either variant, every sequence, every valid position `p` and every list of
steps inside the scope (`get()` calls, writes through the handle, `it++` on
the caller's own cursor variable), the scope runs through; before the scope
ends `set` has not been invoked and the captured cursor is still `p` although
the caller's variable has advanced; at the end of the scope `set` has been
invoked exactly once, with `p`, and only position `p` of the sequence can have
changed. -/
theorem scoped_commit_once {T : Type} [CppInit T] (isZeroCopy : Bool) (seq : List T) (p : Nat)
    (cs : List (ScopeStep T)) (hp : p < seq.length) :
    ∃ s1 seq1, (ScopeState.enter isZeroCopy seq p).run cs = some s1 ∧
      s1.setCalls = [] ∧ s1.w.zc._it = p ∧ s1.it = p + countAdvance cs ∧
      s1.leave = some (seq1, [p]) ∧ seq1.length = seq.length ∧
      ∀ q, q ≠ p → seq1[q]? = seq[q]? := by
  obtain ⟨s1, h1, hinv, hit⟩ :=
    scope_run seq p hp cs (ScopeState.enter isZeroCopy seq p) (scope_enter_inv isZeroCopy seq p)
  obtain ⟨seq1, h2, h3, h4⟩ := scope_leave seq p hp s1 hinv
  exact ⟨s1, seq1, h1, hinv.1, hinv.2.1, hit, h2, h3, h4⟩

theorem scoped_commit_once_witness :
    ∃ s1 seq1, (ScopeState.enter false ([4, 5, 6] : List Int) 1).run
        [.get, .advance, .write 9, .advance] = some s1 ∧
      s1.setCalls = [] ∧ s1.w.zc._it = 1 ∧
      s1.it = 1 + countAdvance [ScopeStep.get, .advance, .write (9 : Int), .advance] ∧
      s1.leave = some (seq1, [1]) ∧ seq1.length = ([4, 5, 6] : List Int).length ∧
      ∀ q, q ≠ 1 → seq1[q]? = ([4, 5, 6] : List Int)[q]? :=
  scoped_commit_once false [4, 5, 6] 1 [.get, .advance, .write 9, .advance] (by decide)

/-- C13. Introspection forwarding: for every pairing `(T, IT)`,
`traits::is_zero_copy<zero_copy<T, IT>>::value`,
`traits::is_zero_copy<zero_copy_scoped<T, IT>>::value`,
`zero_copy<T, IT>::is_zero_copy` and `zero_copy_scoped<T, IT>::is_zero_copy` all
equal the capability probe's result for the pairing (whether
`iterator_traits<IT>::reference` is `T&`). They are functions of the pairing
alone; and the variant of an accessor created for the pairing agrees with them
after every list of `get` and `set` calls that returns. -/
theorem introspection_forwarding (T : ObjTy) (IT : CursorTy) :
    traits.is_zero_copy.value (.zero_copy T IT) =
        impl.zero_copy_impl.is_zero_copy T (zero_copy.R IT) ∧
      traits.is_zero_copy.value (.zero_copy_scoped T IT) =
        impl.zero_copy_impl.is_zero_copy T (zero_copy.R IT) ∧
      zero_copy.is_zero_copy T IT = impl.zero_copy_impl.is_zero_copy T (zero_copy.R IT) ∧
      zero_copy_scoped.is_zero_copy T IT = impl.zero_copy_impl.is_zero_copy T (zero_copy.R IT) ∧
      impl.zero_copy_impl.is_zero_copy T (zero_copy.R IT) = decide (zero_copy.R IT = Ty.lref T) ∧
      (∀ (α : Type) [CppInit α] (seq : List α) (junk : α) (cs : List Call) (w1 : World α),
        runCalls ⟨seq, zero_copy.defaultInit (zero_copy.is_zero_copy T IT) junk⟩ cs = some w1 →
        w1.zc.isDirect = traits.is_zero_copy.value (.zero_copy T IT)) := by
  refine ⟨rfl, rfl, rfl, rfl, ?_, ?_⟩
  · unfold impl.zero_copy_impl.is_zero_copy impl.matchesSpecialization
    cases h : zero_copy.R IT with
    | value t => simp [impl.deduceSecond]
    | lref t => simp [impl.deduceSecond]
    | rref t => simp [impl.deduceSecond]
  · intro α _ seq junk cs w1 h
    rw [runCalls_zc cs _ w1 h]
    simp only [traits.is_zero_copy.value]
    cases zero_copy.is_zero_copy T IT <;> simp [zero_copy.defaultInit, zero_copy.isDirect]

theorem introspection_forwarding_witness :
    runCalls ⟨([1, 2] : List Int),
        zero_copy.defaultInit (zero_copy.is_zero_copy (ObjTy.int false) vector_int_iterator) 0⟩
        [.get 0, .set 1] = some ⟨[1, 2], .direct {}⟩ ∧
      (⟨[1, 2], .direct {}⟩ : World Int).zc.isDirect =
        traits.is_zero_copy.value (.zero_copy (ObjTy.int false) vector_int_iterator) :=
  ⟨by decide, (introspection_forwarding (ObjTy.int false) vector_int_iterator).2.2.2.2.2
    Int [1, 2] 0 [.get 0, .set 1] ⟨[1, 2], .direct {}⟩ (by decide)⟩

/-- C14. No failure of its own, with cursor dereference partial. For every
sequence and every valid cursor position, in either variant, `get`, `set`, a
whole write cycle and the scoped lifecycle (construct, any steps, destroy)
return. Buffered `get` and direct `set` return for every cursor. Direct `get`
and buffered `set`, the two that dereference the cursor, fail exactly when the
cursor is not inside the sequence. Whenever `get` or `set`, of the accessor or
of the scoped accessor, stops at such a dereference, the sequence and the
accessor at that point are the ones the call started with. -/
theorem no_failure_of_its_own {T : Type} [CppInit T] (seq : List T) (it : Nat) :
    (it < seq.length → ∀ (zc : zero_copy T) (v : T) (isZeroCopy : Bool) (cs : List (ScopeStep T)),
      (zero_copy.get ⟨seq, zc⟩ it).isSome = true ∧
      (zero_copy.set ⟨seq, zc⟩ it).isSome = true ∧
      (cycle ⟨seq, zc⟩ it v).isSome = true ∧
      (scopedCycle isZeroCopy seq it v).isSome = true ∧
      (((ScopeState.enter isZeroCopy seq it).run cs).bind ScopeState.leave).isSome = true) ∧
    (∀ b : impl.zero_copy_impl T, (zero_copy.get ⟨seq, .buffered b⟩ it).isSome = true) ∧
    (∀ d : impl.zero_copy_impl_ref T, (zero_copy.set ⟨seq, .direct d⟩ it).isSome = true) ∧
    (∀ d : impl.zero_copy_impl_ref T,
      zero_copy.get ⟨seq, .direct d⟩ it = none ↔ ¬ it < seq.length) ∧
    (∀ b : impl.zero_copy_impl T,
      zero_copy.set ⟨seq, .buffered b⟩ it = none ↔ ¬ it < seq.length) ∧
    (∀ (zc : zero_copy T) (log : List Nat) (r : Traced (World T)),
      zero_copy.getTraced ⟨⟨seq, zc⟩, log⟩ it = .fault r →
        zc.isDirect = true ∧ ¬ it < seq.length ∧ r.st.seq = seq ∧ r.st.zc = zc ∧
          r.setCalls = log) ∧
    (∀ (zc : zero_copy T) (log : List Nat) (r : Traced (World T)),
      zero_copy.setTraced ⟨⟨seq, zc⟩, log⟩ it = .fault r →
        zc.isDirect = false ∧ ¬ it < seq.length ∧ r.st.seq = seq ∧ r.st.zc = zc) ∧
    (¬ it < seq.length →
      ∀ (d : impl.zero_copy_impl_ref T) (b : impl.zero_copy_impl T) (log : List Nat),
        zero_copy.getTraced ⟨⟨seq, .direct d⟩, log⟩ it = .fault ⟨⟨seq, .direct d⟩, log⟩ ∧
        zero_copy.setTraced ⟨⟨seq, .buffered b⟩, log⟩ it =
          .fault ⟨⟨seq, .buffered b⟩, log ++ [it]⟩) ∧
    (∀ (zc : zero_copy T) (log : List Nat) (r : Traced (ScopedWorld T)),
      zero_copy_scoped.getTraced ⟨⟨seq, ⟨zc, it⟩⟩, log⟩ = .fault r →
        ¬ it < seq.length ∧ r.st = ⟨seq, ⟨zc, it⟩⟩) ∧
    (∀ (zc : zero_copy T) (log : List Nat) (r : Traced (List T)),
      zero_copy_scoped.dtorTraced ⟨⟨seq, ⟨zc, it⟩⟩, log⟩ = .fault r →
        ¬ it < seq.length ∧ r.st = seq) := by
  refine ⟨?_, ?_, ?_, ?_, ?_, ?_, ?_, ?_, ?_, ?_⟩
  · intro hit zc v isZeroCopy cs
    obtain ⟨w1, hc, _, _⟩ := cycle_seq ⟨seq, zc⟩ it v hit
    obtain ⟨s1, h1, hinv, _⟩ :=
      scope_run seq it hit cs (ScopeState.enter isZeroCopy seq it)
        (scope_enter_inv isZeroCopy seq it)
    obtain ⟨seq1, h2, _, _⟩ := scope_leave seq it hit s1 hinv
    refine ⟨?_, ?_, by simp [hc], by simp [scopedCycle_eq isZeroCopy seq it v hit],
      by simp [h1, h2]⟩
    · cases zc <;> simp [zero_copy.get_buffered, zero_copy.get_direct, hit]
    · cases zc <;> simp [zero_copy.set_buffered, zero_copy.set_direct, hit]
  · intro b
    simp [zero_copy.get_buffered]
  · intro d
    simp [zero_copy.set_direct]
  · intro d
    simp [zero_copy.get_direct]
  · intro b
    simp [zero_copy.set_buffered]
  · intro zc log r h
    cases zc with
    | buffered b => simp [zero_copy.getTraced_buffered] at h
    | direct d =>
      rw [zero_copy.getTraced_direct] at h
      by_cases hit : it < seq.length
      · simp [hit] at h
      · simp only [hit, if_false, Outcome.fault.injEq] at h
        subst h
        exact ⟨rfl, hit, rfl, rfl, rfl⟩
  · intro zc log r h
    cases zc with
    | buffered b =>
      rw [zero_copy.setTraced_buffered] at h
      by_cases hit : it < seq.length
      · simp [hit] at h
      · simp only [hit, if_false, Outcome.fault.injEq] at h
        subst h
        exact ⟨rfl, hit, rfl, rfl⟩
    | direct d => simp [zero_copy.setTraced_direct] at h
  · intro hit d b log
    simp [zero_copy.getTraced_direct, zero_copy.setTraced_buffered, hit]
  · intro zc log r h
    cases zc with
    | buffered b => simp [scoped_getTraced_buffered] at h
    | direct d =>
      rw [scoped_getTraced_direct] at h
      by_cases hit : it < seq.length
      · simp [hit] at h
      · simp only [hit, if_false, Outcome.fault.injEq] at h
        subst h
        exact ⟨hit, rfl⟩
  · intro zc log r h
    cases zc with
    | buffered b =>
      rw [scoped_dtorTraced_buffered] at h
      by_cases hit : it < seq.length
      · simp [hit] at h
      · simp only [hit, if_false, Outcome.fault.injEq] at h
        subst h
        exact ⟨hit, rfl⟩
    | direct d => simp [scoped_dtorTraced_direct] at h

theorem no_failure_of_its_own_witness :
    ((zero_copy.get ⟨([4, 5, 6] : List Int), .buffered ⟨3⟩⟩ 2).isSome = true ∧
      (zero_copy.set ⟨([4, 5, 6] : List Int), .buffered ⟨3⟩⟩ 2).isSome = true ∧
      (cycle ⟨([4, 5, 6] : List Int), .buffered ⟨3⟩⟩ 2 9).isSome = true ∧
      (scopedCycle true ([4, 5, 6] : List Int) 2 9).isSome = true ∧
      (((ScopeState.enter true ([4, 5, 6] : List Int) 2).run [.get, .write 9]).bind
        ScopeState.leave).isSome = true) ∧
    (zero_copy.getTraced ⟨⟨([4, 5, 6] : List Int), .direct {}⟩, []⟩ 3 =
        .fault ⟨⟨[4, 5, 6], .direct {}⟩, []⟩ ∧
      zero_copy.setTraced ⟨⟨([4, 5, 6] : List Int), .buffered ⟨3⟩⟩, []⟩ 3 =
        .fault ⟨⟨[4, 5, 6], .buffered ⟨3⟩⟩, [] ++ [3]⟩) :=
  ⟨(no_failure_of_its_own [4, 5, 6] 2).1 (by decide) (.buffered ⟨3⟩) 9 true [.get, .write 9],
    (no_failure_of_its_own ([4, 5, 6] : List Int) 3).2.2.2.2.2.2.2.1 (by decide) {} ⟨3⟩ []⟩

/-- C15 (as the claim states it, refuted). With the sequence `[1, 1]`, the
`get` cursor at 0, the `set` cursor at 1 and the value 1, both variants
return the same final sequence `[1, 1]` although the two cursors differ. -/
theorem cross_cursor_same_result :
    (0 : Nat) ≠ 1 ∧
      cycleAt ⟨([1, 1] : List Int), .buffered ⟨0⟩⟩ 0 1 1 = some ⟨[1, 1], .buffered ⟨1⟩⟩ ∧
      cycleAt ⟨([1, 1] : List Int), .direct {}⟩ 0 1 1 = some ⟨[1, 1], .direct {}⟩ ∧
      ¬ ((cycleAt ⟨([1, 1] : List Int), .buffered ⟨0⟩⟩ 0 1 1).map (fun w => w.seq) ≠
        (cycleAt ⟨([1, 1] : List Int), .direct {}⟩ 0 1 1).map (fun w => w.seq)) := by
  decide

/-- C15 (amended). The commit target is decided by the cursor passed to `set`
in the buffered variant: for every sequence, every two distinct valid
positions `p` and `q` and every value `v`, `get` at `p`, write `v`, `set` at
`q` on a buffered accessor returns, leaves position `p` unchanged and stores
`v` at `q`; on a direct accessor the same calls return, store `v` at `p` and
leave `q` unchanged. The two final sequences differ, except when both
positions already held `v`. -/
theorem cross_cursor_commit {T : Type} (seq : List T) (b : impl.zero_copy_impl T)
    (d : impl.zero_copy_impl_ref T) (p q : Nat) (v : T) (hp : p < seq.length)
    (hq : q < seq.length) (hpq : p ≠ q) :
    ∃ wb wd, cycleAt ⟨seq, .buffered b⟩ p q v = some wb ∧
      wb.seq[p]? = seq[p]? ∧ wb.seq[q]? = some v ∧
      cycleAt ⟨seq, .direct d⟩ p q v = some wd ∧
      wd.seq[p]? = some v ∧ wd.seq[q]? = seq[q]? ∧
      (wb.seq ≠ wd.seq ↔ ¬ (seq[p]? = some v ∧ seq[q]? = some v)) := by
  obtain ⟨hb1, hb2, _⟩ := getElem?_set_frame seq q v hq
  obtain ⟨hd1, hd2, _⟩ := getElem?_set_frame seq p v hp
  refine ⟨_, _, cycleAt_buffered seq b p q v hq, hb2 p hpq, hb1,
    cycleAt_direct seq d p q v hp, hd1, hd2 q (Ne.symm hpq), ?_⟩
  simp only [ne_eq, not_iff_not]
  constructor
  · intro h
    constructor
    · rw [← hb2 p hpq, h, hd1]
    · rw [← hd2 q (Ne.symm hpq), ← h, hb1]
  · intro h
    rw [set_eq_self seq q v h.2, set_eq_self seq p v h.1]

theorem cross_cursor_commit_witness :
    ∃ wb wd, cycleAt ⟨([4, 5, 6] : List Int), .buffered ⟨0⟩⟩ 0 2 9 = some wb ∧
      wb.seq[0]? = ([4, 5, 6] : List Int)[0]? ∧ wb.seq[2]? = some 9 ∧
      cycleAt ⟨([4, 5, 6] : List Int), .direct {}⟩ 0 2 9 = some wd ∧
      wd.seq[0]? = some 9 ∧ wd.seq[2]? = ([4, 5, 6] : List Int)[2]? ∧
      (wb.seq ≠ wd.seq ↔
        ¬ (([4, 5, 6] : List Int)[0]? = some 9 ∧ ([4, 5, 6] : List Int)[2]? = some 9)) :=
  cross_cursor_commit [4, 5, 6] ⟨0⟩ {} 0 2 9 (by decide) (by decide) (by decide)

end z0rg
